import Mathlib

/-!
Verification of `ci/checks/copyright.py`, a CI utility that scans source
files for NVIDIA copyright headers, validates the year range against the
current year, and optionally rewrites stale headers in place.

The embedding models strings as `List Char`.  The two regular expressions

  CheckSimple = Copyright *(?:\(c\))? *(\d{4}),? *NVIDIA C(?:ORPORATION|orporation)
  CheckDouble = Copyright *(?:\(c\))? *(\d{4})-(\d{4}),? *NVIDIA C(?:ORPORATION|orporation)

are rigid enough that greedy matching without backtracking is equivalent to
Python's backtracking search: every ` *` is followed by a component that can
never consume a space, the optional components `(?:\(c\))?` and `,?` are
followed by components that can never consume their first character, and the
alternation branches differ in their first character.  `search` is modelled
by trying the anchored matcher at every suffix, `sub` by scanning left to
right and continuing after each match, exactly Python's semantics for these
patterns.  `\d` is modelled as an ASCII digit.
-/

namespace CopyrightCheck

abbrev Str := List Char

def strL (s : String) : Str := s.data

/-- Match a literal prefix, returning the remainder on success. -/
def tryLit : Str → Str → Option Str
  | [], s => some s
  | _ :: _, [] => none
  | l :: ls, c :: cs => if c = l then tryLit ls cs else none

/-- Greedily consume leading spaces (the regex component ` *`). -/
def skipSpaces : Str → Str
  | [] => []
  | c :: cs => if c = ' ' then skipSpaces cs else c :: cs

/-- Greedily consume an optional literal (the regex components `(?:\(c\))?` and `,?`). -/
def tryOptLit (l : Str) (s : Str) : Str :=
  match tryLit l s with
  | some r => r
  | none => s

/-- Consume exactly `n` ASCII digits, returning them and the remainder (the
regex component `\d{n}`). -/
def tryDigits : Nat → Str → Option (Str × Str)
  | 0, s => some ([], s)
  | _ + 1, [] => none
  | n + 1, c :: cs =>
    if c.isDigit then
      match tryDigits n cs with
      | some (d, r) => some (c :: d, r)
      | none => none
    else none

/-- The regex alternation `(?:ORPORATION|orporation)`. -/
def corpTail (s : Str) : Option Str :=
  match tryLit (strL "ORPORATION") s with
  | some r => some r
  | none => tryLit (strL "orporation") s

/-- Anchored match of `CheckSimple` at the head of `s`; returns the captured
four digit chars and the remainder after the match. -/
def matchSimpleAnchored (s : Str) : Option (Str × Str) :=
  (tryLit (strL "Copyright") s).bind fun s1 =>
  (tryDigits 4 (skipSpaces (tryOptLit (strL "(c)") (skipSpaces s1)))).bind fun p =>
  (tryLit (strL "NVIDIA C") (skipSpaces (tryOptLit (strL ",") p.2))).bind fun s4 =>
  (corpTail s4).map fun s5 => (p.1, s5)

/-- Anchored match of `CheckDouble` at the head of `s`; returns the two
captured digit groups and the remainder after the match. -/
def matchDoubleAnchored (s : Str) : Option (Str × Str × Str) :=
  (tryLit (strL "Copyright") s).bind fun s1 =>
  (tryDigits 4 (skipSpaces (tryOptLit (strL "(c)") (skipSpaces s1)))).bind fun p1 =>
  (tryLit (strL "-") p1.2).bind fun s3b =>
  (tryDigits 4 s3b).bind fun p2 =>
  (tryLit (strL "NVIDIA C") (skipSpaces (tryOptLit (strL ",") p2.2))).bind fun s5 =>
  (corpTail s5).map fun s6 => (p1.1, p2.1, s6)

/-- `CheckSimple.search`: first match scanning left to right. -/
def searchSimple : Str → Option Str
  | [] => none
  | c :: cs =>
    match matchSimpleAnchored (c :: cs) with
    | some (d, _) => some d
    | none => searchSimple cs

/-- `CheckDouble.search`: first match scanning left to right. -/
def searchDouble : Str → Option (Str × Str)
  | [] => none
  | c :: cs =>
    match matchDoubleAnchored (c :: cs) with
    | some (d1, d2, _) => some (d1, d2)
    | none => searchDouble cs

/-- `int()` on a captured digit group. -/
def digitsToNat (d : Str) : Nat :=
  d.foldl (fun a c => 10 * a + (c.toNat - 48)) 0

/-- `getCopyrightYears(line)`: try `CheckSimple` first, then `CheckDouble`;
`(None, None)` is modelled as `none`. -/
def getCopyrightYears (line : Str) : Option (Nat × Nat) :=
  match searchSimple line with
  | some d => some (digitsToNat d, digitsToNat d)
  | none =>
    match searchDouble line with
    | some (d1, d2) => some (digitsToNat d1, digitsToNat d2)
    | none => none

/-- Python's `"{:04d}".format`. -/
def formatYear (n : Nat) : Str :=
  let d := Nat.toDigits 10 n
  List.replicate (4 - d.length) '0' ++ d

theorem tryLit_le : ∀ l s r, tryLit l s = some r → r.length ≤ s.length
  | [], s, r => by simp [tryLit]; rintro rfl; omega
  | _ :: _, [], r => by simp [tryLit]
  | l :: ls, c :: cs, r => by
    simp only [tryLit]
    split
    · intro h
      have := tryLit_le ls cs r h
      simp; omega
    · intro h; exact absurd h (by simp)

theorem tryLit_lt (l s r : Str) (hl : l ≠ []) (h : tryLit l s = some r) :
    r.length < s.length := by
  cases l with
  | nil => exact absurd rfl hl
  | cons a ls =>
    cases s with
    | nil => simp [tryLit] at h
    | cons c cs =>
      simp only [tryLit] at h
      split at h
      · have := tryLit_le ls cs r h
        simp; omega
      · exact absurd h (by simp)

theorem skipSpaces_le : ∀ s : Str, (skipSpaces s).length ≤ s.length
  | [] => by simp [skipSpaces]
  | c :: cs => by
    simp only [skipSpaces]
    split
    · have := skipSpaces_le cs; simp; omega
    · simp

theorem tryOptLit_le (l s : Str) : (tryOptLit l s).length ≤ s.length := by
  unfold tryOptLit
  split
  · next r h => exact tryLit_le l s r h
  · exact Nat.le_refl _

theorem tryDigits_le : ∀ n s d r, tryDigits n s = some (d, r) → r.length ≤ s.length
  | 0, s, d, r => by simp [tryDigits]; rintro rfl rfl; omega
  | _ + 1, [], d, r => by simp [tryDigits]
  | n + 1, c :: cs, d, r => by
    simp only [tryDigits]
    split
    · split
      · next h =>
        simp only [Option.some.injEq, Prod.mk.injEq]
        rintro ⟨rfl, rfl⟩
        have := tryDigits_le n cs _ _ h
        simp; omega
      · simp
    · simp

theorem corpTail_lt (s r : Str) (h : corpTail s = some r) : r.length < s.length := by
  unfold corpTail at h
  split at h
  · next r' h' =>
    have heq : r' = r := by injection h
    exact heq ▸ tryLit_lt _ s r' (by decide) h'
  · exact tryLit_lt _ s r (by decide) h

theorem matchSimpleAnchored_length (s : Str) (d r : Str)
    (h : matchSimpleAnchored s = some (d, r)) : r.length < s.length := by
  unfold matchSimpleAnchored at h
  rw [Option.bind_eq_some] at h
  obtain ⟨s1, h1, h⟩ := h
  rw [Option.bind_eq_some] at h
  obtain ⟨p, hp, h⟩ := h
  rw [Option.bind_eq_some] at h
  obtain ⟨s4, h4, h⟩ := h
  rw [Option.map_eq_some'] at h
  obtain ⟨s5, h5, hlast⟩ := h
  have l1 := tryLit_lt _ s s1 (by decide) h1
  have l2 := skipSpaces_le s1
  have l2b := tryOptLit_le (strL "(c)") (skipSpaces s1)
  have l2c := skipSpaces_le (tryOptLit (strL "(c)") (skipSpaces s1))
  have l3 := tryDigits_le 4 _ p.1 p.2 (by rw [hp])
  have l3b := tryOptLit_le (strL ",") p.2
  have l3c := skipSpaces_le (tryOptLit (strL ",") p.2)
  have l4 := tryLit_le _ _ s4 h4
  have l5 := corpTail_lt s4 s5 h5
  simp only [Prod.mk.injEq] at hlast
  obtain ⟨-, hr⟩ := hlast
  subst hr
  omega

theorem matchDoubleAnchored_length (s : Str) (d1 d2 r : Str)
    (h : matchDoubleAnchored s = some (d1, d2, r)) : r.length < s.length := by
  unfold matchDoubleAnchored at h
  rw [Option.bind_eq_some] at h
  obtain ⟨s1, h1, h⟩ := h
  rw [Option.bind_eq_some] at h
  obtain ⟨p1, hp1, h⟩ := h
  rw [Option.bind_eq_some] at h
  obtain ⟨s3b, h3b, h⟩ := h
  rw [Option.bind_eq_some] at h
  obtain ⟨p2, hp2, h⟩ := h
  rw [Option.bind_eq_some] at h
  obtain ⟨s5, h5, h⟩ := h
  rw [Option.map_eq_some'] at h
  obtain ⟨s6, h6, hlast⟩ := h
  have l1 := tryLit_lt _ s s1 (by decide) h1
  have l2 := skipSpaces_le s1
  have l2b := tryOptLit_le (strL "(c)") (skipSpaces s1)
  have l2c := skipSpaces_le (tryOptLit (strL "(c)") (skipSpaces s1))
  have l3 := tryDigits_le 4 _ p1.1 p1.2 (by rw [hp1])
  have l3b := tryLit_le _ p1.2 s3b h3b
  have l4 := tryDigits_le 4 s3b p2.1 p2.2 (by rw [hp2])
  have l4b := tryOptLit_le (strL ",") p2.2
  have l4c := skipSpaces_le (tryOptLit (strL ",") p2.2)
  have l5 := tryLit_le _ _ s5 h5
  have l6 := corpTail_lt s5 s6 h6
  simp only [Prod.mk.injEq] at hlast
  obtain ⟨-, -, hr⟩ := hlast
  subst hr
  omega

/-- The replacement template of the simple-to-double rewrite,
`Copyright (c) \1-\1, NVIDIA CORPORATION` with the captured digits `d`. -/
def simpleRepl (d : Str) : Str :=
  strL "Copyright (c) " ++ d ++ '-' :: d ++ strL ", NVIDIA CORPORATION"

/-- The replacement text `Copyright (c) {start:04d}-{end:04d}, NVIDIA CORPORATION`. -/
def doubleRepl (start finish : Nat) : Str :=
  strL "Copyright (c) " ++ formatYear start ++ '-' :: formatYear finish ++
    strL ", NVIDIA CORPORATION"

/-- Fuel-indexed body of `CheckSimple.sub`; each step consumes at least one
character, so `s.length` fuel always suffices. -/
def subSimpleFuel : Nat → Str → Str
  | _, [] => []
  | 0, s => s
  | fuel + 1, c :: cs =>
    match matchSimpleAnchored (c :: cs) with
    | some (d, rest) => simpleRepl d ++ subSimpleFuel fuel rest
    | none => c :: subSimpleFuel fuel cs

/-- `CheckSimple.sub(r"Copyright (c) \1-\1, NVIDIA CORPORATION", line)`:
replace every non-overlapping match, scanning left to right. -/
def subSimple (s : Str) : Str := subSimpleFuel s.length s

/-- Fuel-indexed body of `CheckDouble.sub`. -/
def subDoubleFuel (start finish : Nat) : Nat → Str → Str
  | _, [] => []
  | 0, s => s
  | fuel + 1, c :: cs =>
    match matchDoubleAnchored (c :: cs) with
    | some (_, _, rest) => doubleRepl start finish ++ subDoubleFuel start finish fuel rest
    | none => c :: subDoubleFuel start finish fuel cs

/-- `CheckDouble.sub(rf"Copyright (c) {start:04d}-{end:04d}, NVIDIA CORPORATION", line)`. -/
def subDouble (start finish : Nat) (s : Str) : Str := subDoubleFuel start finish s.length s

theorem subSimpleFuel_congr :
    ∀ f f' s, s.length ≤ f → s.length ≤ f' → subSimpleFuel f s = subSimpleFuel f' s := by
  intro f
  induction f with
  | zero =>
    intro f' s hf _
    cases s with
    | nil => cases f' <;> rfl
    | cons c cs => simp at hf
  | succ g ih =>
    intro f' s hf hf'
    cases s with
    | nil => cases f' <;> rfl
    | cons c cs =>
      cases f' with
      | zero => simp at hf'
      | succ g' =>
        simp only [subSimpleFuel]
        cases hm : matchSimpleAnchored (c :: cs) with
        | some p =>
          obtain ⟨d, rest⟩ := p
          have hlen := matchSimpleAnchored_length _ _ _ hm
          simp only []
          rw [ih g' rest (by simp at hlen hf ⊢; omega) (by simp at hlen hf' ⊢; omega)]
        | none =>
          simp only []
          rw [ih g' cs (by simp at hf ⊢; omega) (by simp at hf' ⊢; omega)]

theorem subDoubleFuel_congr (start finish : Nat) :
    ∀ f f' s, s.length ≤ f → s.length ≤ f' →
      subDoubleFuel start finish f s = subDoubleFuel start finish f' s := by
  intro f
  induction f with
  | zero =>
    intro f' s hf _
    cases s with
    | nil => cases f' <;> rfl
    | cons c cs => simp at hf
  | succ g ih =>
    intro f' s hf hf'
    cases s with
    | nil => cases f' <;> rfl
    | cons c cs =>
      cases f' with
      | zero => simp at hf'
      | succ g' =>
        simp only [subDoubleFuel]
        cases hm : matchDoubleAnchored (c :: cs) with
        | some p =>
          obtain ⟨d1, d2, rest⟩ := p
          have hlen := matchDoubleAnchored_length _ _ _ _ hm
          simp only []
          rw [ih g' rest (by simp at hlen hf ⊢; omega) (by simp at hlen hf' ⊢; omega)]
        | none =>
          simp only []
          rw [ih g' cs (by simp at hf ⊢; omega) (by simp at hf' ⊢; omega)]

theorem subSimple_nil : subSimple [] = [] := rfl

theorem subSimple_cons_none (c : Char) (cs : Str)
    (h : matchSimpleAnchored (c :: cs) = none) : subSimple (c :: cs) = c :: subSimple cs := by
  unfold subSimple
  simp only [List.length_cons, subSimpleFuel, h]

theorem subSimple_cons_some (c : Char) (cs d rest : Str)
    (h : matchSimpleAnchored (c :: cs) = some (d, rest)) :
    subSimple (c :: cs) = simpleRepl d ++ subSimple rest := by
  unfold subSimple
  simp only [List.length_cons, subSimpleFuel, h]
  have hlen := matchSimpleAnchored_length _ _ _ h
  rw [subSimpleFuel_congr cs.length rest.length rest (by simp at hlen ⊢; omega) (Nat.le_refl _)]

theorem subDouble_nil (start finish : Nat) : subDouble start finish [] = [] := rfl

theorem subDouble_cons_none (start finish : Nat) (c : Char) (cs : Str)
    (h : matchDoubleAnchored (c :: cs) = none) :
    subDouble start finish (c :: cs) = c :: subDouble start finish cs := by
  unfold subDouble
  simp only [List.length_cons, subDoubleFuel, h]

theorem subDouble_cons_some (start finish : Nat) (c : Char) (cs d1 d2 rest : Str)
    (h : matchDoubleAnchored (c :: cs) = some (d1, d2, rest)) :
    subDouble start finish (c :: cs) = doubleRepl start finish ++ subDouble start finish rest := by
  unfold subDouble
  simp only [List.length_cons, subDoubleFuel, h]
  have hlen := matchDoubleAnchored_length _ _ _ _ h
  rw [subDoubleFuel_congr start finish cs.length rest.length rest
    (by simp at hlen ⊢; omega) (Nat.le_refl _)]

/-- `replaceCurrentYear(line, start, end)`: first turn a simple header into a
double one, then rewrite the years of every double header. -/
def replaceCurrentYear (line : Str) (start finish : Nat) : Str :=
  subDouble start finish (subSimple line)

/-- The message of the `start > end` issue. -/
def invertedMsg : String :=
  "First year after second year in the copyright header (manual fix required)"

/-- The message of the stale-year issue. -/
def notCurrentMsg : String := "Current year not included in the copyright header"

/-- The message of the missing-header issue. -/
def missingMsg : String :=
  "Copyright header missing or formatted incorrectly (manual fix required)"

/-- One entry of the `errs` list of `checkCopyright`:
`[path, lineNum, message, replacement-or-None]`. -/
structure Issue where
  path : String
  lineNum : Nat
  msg : String
  replacement : Option Str
deriving DecidableEq, Repr

/-- The issues the loop body of `checkCopyright` appends for one line
(`lineNum` is 1-based, `thisYear` is the current year).  When both
`thisYear < start` and `thisYear > end` hold the second assignment to
`e[-1]` wins, so the replacement uses `(start, thisYear)` whenever
`thisYear > end`. -/
def lineIssues (path : String) (lineNum thisYear : Nat) (line : Str) : List Issue :=
  match getCopyrightYears line with
  | none => []
  | some (start, finish) =>
    (if start > finish then [⟨path, lineNum, invertedMsg, none⟩] else []) ++
    (if thisYear < start ∨ thisYear > finish then
      [⟨path, lineNum, notCurrentMsg,
        some (if thisYear > finish then replaceCurrentYear line start thisYear
              else replaceCurrentYear line thisYear finish)⟩]
     else [])

/-- The issues collected by the scan loop, numbering lines from `n`. -/
def scanLines (path : String) (thisYear : Nat) : Nat → List Str → List Issue
  | _, [] => []
  | n, line :: rest => lineIssues path n thisYear line ++ scanLines path thisYear (n + 1) rest

/-- `crFound`: some line matched one of the two patterns. -/
def crFound (lines : List Str) : Bool :=
  lines.any fun l => (getCopyrightYears l).isSome

/-- `yearMatched`: some line matched with `start ≤ thisYear ≤ end`. -/
def yearMatched (thisYear : Nat) (lines : List Str) : Bool :=
  lines.any fun l =>
    match getCopyrightYears l with
    | some (start, finish) => decide (start ≤ thisYear ∧ thisYear ≤ finish)
    | none => false

/-- The issue list `checkCopyright` returns for a file with the given lines:
the scan loop, then the missing-header issue when no line matched, then the
suppression rule (`yearMatched` clears everything). -/
def checkCopyrightIssues (path : String) (thisYear : Nat) (lines : List Str) : List Issue :=
  let errs := scanLines path thisYear 1 lines
  let errs := if crFound lines then errs else errs ++ [⟨path, 0, missingMsg, none⟩]
  if yearMatched thisYear lines then [] else errs

/-- The patch loop: `lines[lineNum - 1] = replacement` for every issue that
carries a replacement. -/
def applyFixes (lines : List Str) (errs : List Issue) : List Str :=
  errs.foldl
    (fun ls e =>
      match e.replacement with
      | some r => ls.set (e.lineNum - 1) r
      | none => ls)
    lines

/-- `checkCopyright(f, update_current_year)` on a file whose content is
`lines` (each line keeps its trailing newline, as with `readlines()`):
returns the issue list together with the file content left on disk. -/
def checkCopyrightPure (path : String) (thisYear : Nat) (update : Bool)
    (lines : List Str) : List Issue × List Str :=
  let errs := checkCopyrightIssues path thisYear lines
  (errs, if update then applyFixes lines errs else lines)

/-- One file found under a requested directory, with its content. -/
structure ScanFile where
  path : String
  lines : List Str
deriving DecidableEq, Repr

/-- The directory loop of `checkCopyright_main`: each entry pairs the answer
of `os.path.isdir` with the files found under that directory.  The loop
raises `ValueError` at the first missing directory, before any file is
scanned. -/
def collectFiles : List (Bool × List ScanFile) → Except String (List ScanFile)
  | [] => .ok []
  | (dirOk, fs) :: rest =>
    if dirOk then (collectFiles rest).map (fun tail => fs ++ tail) else
      .error "is not a directory."

/-- The scan loop of `checkCopyright_main`: concatenate the issues of every
collected file. -/
def scanErrors (files : List ScanFile) (thisYear : Nat) (update : Bool) : List Issue :=
  (files.map fun f => (checkCopyrightPure f.path thisYear update f.lines).1).flatten

/-- `checkCopyright_main` in directory mode, abstracted over the filesystem:
`compileFails` tells whether compiling the exemption patterns raised
`re.error` (the code returns 1 at once), `dirs` pairs each positional
directory argument with its existence and contents.  The result is the
process exit code together with the issues printed, or the uncaught
`ValueError` of a missing directory (a non-zero exit with nothing printed). -/
def mainModel (compileFails : Bool) (dirs : List (Bool × List ScanFile))
    (thisYear : Nat) (update : Bool) : Except String (Nat × List Issue) :=
  if compileFails then .ok (1, [])
  else
    match collectFiles dirs with
    | .error msg => .error msg
    | .ok files =>
      let errors := scanErrors files thisYear update
      .ok (if errors.length > 0 then 1 else 0, errors)

theorem yearMatched_of_mem {thisYear : Nat} {lines : List Str} {l : Str} {s e : Nat}
    (hl : l ∈ lines) (hp : getCopyrightYears l = some (s, e))
    (h1 : s ≤ thisYear) (h2 : thisYear ≤ e) : yearMatched thisYear lines = true := by
  unfold yearMatched
  rw [List.any_eq_true]
  refine ⟨l, hl, ?_⟩
  rw [hp]
  exact decide_eq_true ⟨h1, h2⟩

/-- C1: if at least one scanned line yields copyright years whose range
contains the current year, `checkCopyright` returns an empty issue list for
the file, regardless of inverted-range or stale-year issues found on any
other line of the same file. -/
theorem claim1_valid_line_suppresses_all (path : String) (thisYear : Nat) (update : Bool)
    (lines : List Str)
    (h : ∃ l ∈ lines, ∃ s e, getCopyrightYears l = some (s, e) ∧
      s ≤ thisYear ∧ thisYear ≤ e) :
    (checkCopyrightPure path thisYear update lines).1 = [] := by
  obtain ⟨l, hl, s, e, hp, h1, h2⟩ := h
  have hy := yearMatched_of_mem hl hp h1 h2
  simp [checkCopyrightPure, checkCopyrightIssues, hy]

theorem claim1_witness :
    (∃ l ∈ [strL "Copyright (c) 2025-2020, NVIDIA CORPORATION\n",
            strL "Copyright (c) 2020-2024, NVIDIA CORPORATION\n"],
       ∃ s e, getCopyrightYears l = some (s, e) ∧ s ≤ 2024 ∧ 2024 ≤ e) ∧
    (checkCopyrightPure "file.py" 2024 true
        [strL "Copyright (c) 2025-2020, NVIDIA CORPORATION\n",
         strL "Copyright (c) 2020-2024, NVIDIA CORPORATION\n"]).1 = [] :=
  ⟨⟨strL "Copyright (c) 2020-2024, NVIDIA CORPORATION\n", by decide,
     2020, 2024, by decide, by decide, by decide⟩,
   claim1_valid_line_suppresses_all _ _ _ _
    ⟨strL "Copyright (c) 2020-2024, NVIDIA CORPORATION\n", by decide,
     2020, 2024, by decide, by decide, by decide⟩⟩

theorem scanLines_eq_nil (path : String) (y : Nat) :
    ∀ (lines : List Str) (n : Nat), (∀ l ∈ lines, getCopyrightYears l = none) →
      scanLines path y n lines = []
  | [], _, _ => rfl
  | line :: rest, n, h => by
    have h1 : getCopyrightYears line = none := h line (by simp)
    have h2 := scanLines_eq_nil path y rest (n + 1) (fun l hl => h l (by simp [hl]))
    simp [scanLines, lineIssues, h1, h2]

/-- C6: a file with no line matching either pattern gets exactly one
missing-header issue, at line number 0, with no replacement, and its content
is untouched even when auto-fix is enabled. -/
theorem claim6_missing_header (path : String) (thisYear : Nat) (update : Bool)
    (lines : List Str) (h : ∀ l ∈ lines, getCopyrightYears l = none) :
    checkCopyrightPure path thisYear update lines
      = ([⟨path, 0, missingMsg, none⟩], lines) := by
  have hcr : crFound lines = false := by
    unfold crFound
    rw [List.any_eq_false]
    intro l hl
    simp [h l hl]
  have hy : yearMatched thisYear lines = false := by
    unfold yearMatched
    rw [List.any_eq_false]
    intro l hl
    simp [h l hl]
  have hs := scanLines_eq_nil path thisYear lines 1 h
  cases update <;>
    simp [checkCopyrightPure, checkCopyrightIssues, hcr, hy, hs, applyFixes]

theorem claim6_witness :
    (∀ l ∈ [strL "hello\n", strL "world\n"], getCopyrightYears l = none) ∧
    checkCopyrightPure "file.py" 2024 true [strL "hello\n", strL "world\n"]
      = ([⟨"file.py", 0, missingMsg, none⟩], [strL "hello\n", strL "world\n"]) :=
  ⟨by decide, claim6_missing_header _ _ _ _ (by decide)⟩

/-- A line whose matched years are inverted (`start > end`). -/
def isInvertedLine (l : Str) : Bool :=
  match getCopyrightYears l with
  | some (s, e) => decide (s > e)
  | none => false

theorem lineIssues_inverted_count (path : String) (n y : Nat) (line : Str) :
    ((lineIssues path n y line).filter fun i => i.msg = invertedMsg).length
      = if isInvertedLine line then 1 else 0 := by
  unfold lineIssues isInvertedLine
  cases hp : getCopyrightYears line with
  | none => simp
  | some p =>
    obtain ⟨s, e⟩ := p
    have hnc : (notCurrentMsg = invertedMsg) = False := eq_false (by decide)
    have hinv : (invertedMsg = invertedMsg) = True := eq_true rfl
    by_cases hse : s > e <;> by_cases hy : y < s ∨ y > e <;>
      simp [hse, hy, List.filter_append, List.filter_cons, hnc, hinv]

theorem lineIssues_inverted_replacement (path : String) (n y : Nat) (line : Str)
    (i : Issue) (hm : i ∈ lineIssues path n y line) (hmsg : i.msg = invertedMsg) :
    i.replacement = none := by
  unfold lineIssues at hm
  cases hp : getCopyrightYears line with
  | none => rw [hp] at hm; simp at hm
  | some p =>
    obtain ⟨s, e⟩ := p
    rw [hp] at hm
    rw [List.mem_append] at hm
    cases hm with
    | inl h =>
      by_cases hse : s > e
      · rw [if_pos hse] at h
        simp at h
        rw [h]
      · rw [if_neg hse] at h
        simp at h
    | inr h =>
      by_cases hy : y < s ∨ y > e
      · rw [if_pos hy] at h
        simp at h
        have hmsg' : notCurrentMsg = invertedMsg := by rw [h] at hmsg; exact hmsg
        exact absurd hmsg' (by decide)
      · rw [if_neg hy] at h
        simp at h

theorem scanLines_inverted_count (path : String) (y : Nat) :
    ∀ (lines : List Str) (n : Nat),
      ((scanLines path y n lines).filter fun i => i.msg = invertedMsg).length
        = (lines.filter fun l => isInvertedLine l).length
  | [], _ => rfl
  | line :: rest, n => by
    have ih := scanLines_inverted_count path y rest (n + 1)
    have hline := lineIssues_inverted_count path n y line
    rw [scanLines, List.filter_append, List.length_append, ih, hline, List.filter_cons]
    by_cases hl : isInvertedLine line
    · simp [hl]
      omega
    · simp [hl]

theorem scanLines_inverted_replacement (path : String) (y : Nat) :
    ∀ (lines : List Str) (n : Nat) (i : Issue), i ∈ scanLines path y n lines →
      i.msg = invertedMsg → i.replacement = none
  | [], _, i => by simp [scanLines]
  | line :: rest, n, i => by
    intro hm hmsg
    rw [scanLines, List.mem_append] at hm
    cases hm with
    | inl h => exact lineIssues_inverted_replacement path n y line i h hmsg
    | inr h => exact scanLines_inverted_replacement path y rest (n + 1) i h hmsg

/-- C2 (amended): for a file in which no copyright line validates, the
checker reports exactly one inverted-range issue per line whose matched
range has `start > end`, and every inverted-range issue carries no
replacement text.  (The claim's "exactly one such issue for the file" fails
when two lines are inverted, see the counterexample.) -/
theorem claim2_inverted_issue_per_line (path : String) (thisYear : Nat) (lines : List Str)
    (hny : yearMatched thisYear lines = false) :
    (((checkCopyrightIssues path thisYear lines).filter fun i => i.msg = invertedMsg).length
        = (lines.filter fun l => isInvertedLine l).length) ∧
    ∀ i ∈ checkCopyrightIssues path thisYear lines,
      i.msg = invertedMsg → i.replacement = none := by
  have hscan := scanLines_inverted_count path thisYear lines 1
  have hrepl := scanLines_inverted_replacement path thisYear lines 1
  have hmiss : (missingMsg = invertedMsg) = False := eq_false (by decide)
  unfold checkCopyrightIssues
  rw [hny]
  by_cases hcr : crFound lines
  · simp only [hcr, if_true, Bool.false_eq_true, if_false]
    exact ⟨hscan, hrepl⟩
  · simp only [hcr, Bool.false_eq_true, if_false]
    constructor
    · rw [List.filter_append, List.length_append, hscan, List.filter_cons]
      simp [hmiss]
    · intro i hi hmsg
      rw [List.mem_append] at hi
      cases hi with
      | inl h => exact hrepl i h hmsg
      | inr h => simp at h; rw [h]

theorem claim2_witness :
    yearMatched 2024 [strL "Copyright (c) 2025-2020, NVIDIA CORPORATION\n", strL "x\n"]
        = false ∧
    ((((checkCopyrightIssues "file.py" 2024
        [strL "Copyright (c) 2025-2020, NVIDIA CORPORATION\n", strL "x\n"]).filter
          fun i => i.msg = invertedMsg).length
        = ([strL "Copyright (c) 2025-2020, NVIDIA CORPORATION\n", strL "x\n"].filter
            fun l => isInvertedLine l).length) ∧
      ∀ i ∈ checkCopyrightIssues "file.py" 2024
          [strL "Copyright (c) 2025-2020, NVIDIA CORPORATION\n", strL "x\n"],
        i.msg = invertedMsg → i.replacement = none) :=
  ⟨by decide, claim2_inverted_issue_per_line _ _ _ (by decide)⟩

/-- C2 counterexample: a file with two inverted-range lines (and no
validating line) gets two inverted-range issues, not exactly one. -/
theorem claim2_counterexample :
    (∃ l ∈ [strL "Copyright (c) 2025-2020, NVIDIA CORPORATION\n",
            strL "Copyright (c) 2026-2021, NVIDIA CORPORATION\n"],
       ∃ s e, getCopyrightYears l = some (s, e) ∧ s > e) ∧
    yearMatched 2024 [strL "Copyright (c) 2025-2020, NVIDIA CORPORATION\n",
      strL "Copyright (c) 2026-2021, NVIDIA CORPORATION\n"] = false ∧
    ¬(((checkCopyrightIssues "file.py" 2024
        [strL "Copyright (c) 2025-2020, NVIDIA CORPORATION\n",
         strL "Copyright (c) 2026-2021, NVIDIA CORPORATION\n"]).filter
          fun i => i.msg = invertedMsg).length = 1) :=
  ⟨⟨strL "Copyright (c) 2025-2020, NVIDIA CORPORATION\n", by decide,
     2025, 2020, by decide, by decide⟩,
   by decide, by decide⟩

/-- C3: a matched line whose end year lies strictly below the current year
(with `start ≤ thisYear`) contributes exactly one stale-year issue, whose
replacement is `replaceCurrentYear line start thisYear`, the range
`(start, thisYear)`; concretely, `Copyright (c) 2019, NVIDIA CORPORATION`
at current year 2024 yields one fixable issue whose replacement line is
`Copyright (c) 2019-2024, NVIDIA CORPORATION`. -/
theorem claim3_stale_year_replacement :
    (∀ (path : String) (n thisYear : Nat) (line : Str) (s e : Nat),
      getCopyrightYears line = some (s, e) → e < thisYear → s ≤ thisYear →
      (lineIssues path n thisYear line).filter (fun i => i.msg = notCurrentMsg)
        = [⟨path, n, notCurrentMsg, some (replaceCurrentYear line s thisYear)⟩]) ∧
    checkCopyrightIssues "file.py" 2024 [strL "Copyright (c) 2019, NVIDIA CORPORATION"]
      = [⟨"file.py", 1, notCurrentMsg,
          some (strL "Copyright (c) 2019-2024, NVIDIA CORPORATION")⟩] := by
  constructor
  · intro path n y line s e hp he hsy
    have hinv : (invertedMsg = notCurrentMsg) = False := eq_false (by decide)
    have hnc : (notCurrentMsg = notCurrentMsg) = True := eq_true rfl
    have hor : y < s ∨ y > e := Or.inr he
    by_cases hse : s > e <;>
      simp [lineIssues, hp, hse, hor, he, List.filter_append, List.filter_cons, hinv, hnc]
  · decide

theorem claim3_witness :
    getCopyrightYears (strL "x Copyright (c) 2015-2019, NVIDIA Corporation")
        = some (2015, 2019) ∧ 2019 < 2024 ∧ 2015 ≤ 2024 ∧
    (lineIssues "file.py" 7 2024 (strL "x Copyright (c) 2015-2019, NVIDIA Corporation")).filter
        (fun i => i.msg = notCurrentMsg)
      = [⟨"file.py", 7, notCurrentMsg,
          some (replaceCurrentYear
            (strL "x Copyright (c) 2015-2019, NVIDIA Corporation") 2015 2024)⟩] := by
  refine ⟨by decide, by decide, by decide, ?_⟩
  exact claim3_stale_year_replacement.1 "file.py" 7 2024
    (strL "x Copyright (c) 2015-2019, NVIDIA Corporation") 2015 2019
    (by decide) (by decide) (by decide)

/-- C4 (amended): a matched line whose start year is strictly above the
current year, and whose end year is not below it, gets a stale-year issue
whose replacement is `replaceCurrentYear line thisYear e`, the range
`(thisYear, end)`.  (Without the `thisYear ≤ end` hypothesis the claim
fails: when the range is inverted with `end < thisYear < start`, the second
assignment to `e[-1]` wins and the replacement uses `(start, thisYear)`,
see the counterexample.) -/
theorem claim4_future_start_replacement (path : String) (n thisYear : Nat) (line : Str)
    (s e : Nat) (hp : getCopyrightYears line = some (s, e)) (hs : thisYear < s)
    (he : thisYear ≤ e) :
    (lineIssues path n thisYear line).filter (fun i => i.msg = notCurrentMsg)
      = [⟨path, n, notCurrentMsg, some (replaceCurrentYear line thisYear e)⟩] := by
  have hinv : (invertedMsg = notCurrentMsg) = False := eq_false (by decide)
  have hnc : (notCurrentMsg = notCurrentMsg) = True := eq_true rfl
  have hye : ¬thisYear > e := by omega
  have hor : thisYear < s ∨ thisYear > e := Or.inl hs
  by_cases hse : s > e <;>
    simp [lineIssues, hp, hse, hor, hye, hs, List.filter_append, List.filter_cons, hinv, hnc]

theorem claim4_witness :
    getCopyrightYears (strL "Copyright (c) 2030-2035, NVIDIA CORPORATION")
        = some (2030, 2035) ∧ 2024 < 2030 ∧ 2024 ≤ 2035 ∧
    (lineIssues "file.py" 1 2024 (strL "Copyright (c) 2030-2035, NVIDIA CORPORATION")).filter
        (fun i => i.msg = notCurrentMsg)
      = [⟨"file.py", 1, notCurrentMsg,
          some (strL "Copyright (c) 2024-2035, NVIDIA CORPORATION")⟩] := by
  refine ⟨by decide, by decide, by decide, ?_⟩
  have h := claim4_future_start_replacement "file.py" 1 2024
    (strL "Copyright (c) 2030-2035, NVIDIA CORPORATION") 2030 2035
    (by decide) (by decide) (by decide)
  rw [h]
  decide

/-- C4 counterexample: for `Copyright (c) 2030-2020, NVIDIA CORPORATION` at
current year 2024 the start year is strictly above the current year, yet the
emitted replacement is `Copyright (c) 2030-2024, NVIDIA CORPORATION` — the
range `(start, thisYear)` — and not the claimed `(thisYear, end)` range
`Copyright (c) 2024-2020, NVIDIA CORPORATION`. -/
theorem claim4_counterexample :
    getCopyrightYears (strL "Copyright (c) 2030-2020, NVIDIA CORPORATION")
        = some (2030, 2020) ∧ 2024 < 2030 ∧
    (lineIssues "file.py" 1 2024 (strL "Copyright (c) 2030-2020, NVIDIA CORPORATION")).filter
        (fun i => i.msg = notCurrentMsg)
      = [⟨"file.py", 1, notCurrentMsg,
          some (strL "Copyright (c) 2030-2024, NVIDIA CORPORATION")⟩] ∧
    replaceCurrentYear (strL "Copyright (c) 2030-2020, NVIDIA CORPORATION") 2024 2020
        = strL "Copyright (c) 2024-2020, NVIDIA CORPORATION" ∧
    strL "Copyright (c) 2030-2024, NVIDIA CORPORATION"
        ≠ strL "Copyright (c) 2024-2020, NVIDIA CORPORATION" := by
  refine ⟨by decide, by decide, by decide, by decide, by decide⟩

/-- C5 counterexample: a file with no copyright line still reports the
missing-header issue on the second auto-fix run, so running the checker
twice does not reach zero remaining issues for every file content. -/
theorem claim5_counterexample :
    (checkCopyrightPure "file.py" 2024 true
        ((checkCopyrightPure "file.py" 2024 true [strL "hello\n"]).2)).1 ≠ [] := by
  decide

/-- C5 (amended): if the file content produced by the first auto-fix run
contains a line whose matched range includes the current year, the second
auto-fix run reports zero issues and leaves the file unchanged.  (The
unconditional claim fails, e.g. for files with no matching line; see the
counterexample.) -/
theorem checkCopyrightPure_eq (path : String) (thisYear : Nat) (update : Bool)
    (lines : List Str) :
    checkCopyrightPure path thisYear update lines
      = (checkCopyrightIssues path thisYear lines,
         if update then applyFixes lines (checkCopyrightIssues path thisYear lines)
         else lines) := rfl

theorem claim5_fix_idempotent (path : String) (thisYear : Nat) (lines : List Str)
    (h : yearMatched thisYear ((checkCopyrightPure path thisYear true lines).2) = true) :
    checkCopyrightPure path thisYear true ((checkCopyrightPure path thisYear true lines).2)
      = ([], (checkCopyrightPure path thisYear true lines).2) := by
  have hiss : checkCopyrightIssues path thisYear
      ((checkCopyrightPure path thisYear true lines).2) = [] := by
    unfold checkCopyrightIssues
    simp [h]
  rw [checkCopyrightPure_eq, hiss]
  rfl

theorem claim5_witness :
    yearMatched 2024 ((checkCopyrightPure "file.py" 2024 true
        [strL "Copyright (c) 2019, NVIDIA CORPORATION\n"]).2) = true ∧
    checkCopyrightPure "file.py" 2024 true ((checkCopyrightPure "file.py" 2024 true
        [strL "Copyright (c) 2019, NVIDIA CORPORATION\n"]).2)
      = ([], (checkCopyrightPure "file.py" 2024 true
          [strL "Copyright (c) 2019, NVIDIA CORPORATION\n"]).2) :=
  ⟨by decide, claim5_fix_idempotent _ _ _ (by decide)⟩

theorem lineIssues_lineNum (path : String) (n y : Nat) (line : Str) (i : Issue)
    (h : i ∈ lineIssues path n y line) : i.lineNum = n := by
  unfold lineIssues at h
  cases hp : getCopyrightYears line with
  | none => rw [hp] at h; simp at h
  | some p =>
    obtain ⟨s, e⟩ := p
    rw [hp] at h
    rw [List.mem_append] at h
    cases h with
    | inl h =>
      by_cases hse : s > e
      · rw [if_pos hse] at h; simp at h; rw [h]
      · rw [if_neg hse] at h; simp at h
    | inr h =>
      by_cases hy : y < s ∨ y > e
      · rw [if_pos hy] at h; simp at h; rw [h]
      · rw [if_neg hy] at h; simp at h

theorem scanLines_lineNum_ge (path : String) (y : Nat) :
    ∀ (lines : List Str) (n : Nat) (i : Issue), i ∈ scanLines path y n lines →
      n ≤ i.lineNum
  | [], _, i => by simp [scanLines]
  | line :: rest, n, i => by
    intro hm
    rw [scanLines, List.mem_append] at hm
    cases hm with
    | inl h => rw [lineIssues_lineNum path n y line i h]
    | inr h =>
      have := scanLines_lineNum_ge path y rest (n + 1) i h
      omega

theorem checkIssues_fixable_lineNum_ge (path : String) (y : Nat) (lines : List Str)
    (i : Issue) (h : i ∈ checkCopyrightIssues path y lines) (hr : i.replacement ≠ none) :
    1 ≤ i.lineNum := by
  unfold checkCopyrightIssues at h
  by_cases hy : yearMatched y lines
  · rw [if_pos hy] at h; simp at h
  · rw [if_neg hy] at h
    by_cases hcr : crFound lines
    · rw [if_pos hcr] at h
      exact scanLines_lineNum_ge path y lines 1 i h
    · rw [if_neg hcr] at h
      rw [List.mem_append] at h
      cases h with
      | inl h => exact scanLines_lineNum_ge path y lines 1 i h
      | inr h =>
        simp at h
        rw [h] at hr
        simp at hr

theorem applyFixes_cons (lines : List Str) (i : Issue) (rest : List Issue) :
    applyFixes lines (i :: rest)
      = applyFixes
          (match i.replacement with
           | some r => lines.set (i.lineNum - 1) r
           | none => lines) rest := rfl

theorem applyFixes_length : ∀ (errs : List Issue) (lines : List Str),
    (applyFixes lines errs).length = lines.length
  | [], _ => rfl
  | i :: rest, lines => by
    rw [applyFixes_cons]
    cases hr : i.replacement with
    | none => simp only [hr]; exact applyFixes_length rest lines
    | some r =>
      simp only [hr]
      rw [applyFixes_length rest]
      exact List.length_set lines _ r

theorem applyFixes_frame : ∀ (errs : List Issue) (lines : List Str) (k : Nat),
    (∀ i ∈ errs, i.replacement ≠ none → i.lineNum ≠ k + 1 ∧ 1 ≤ i.lineNum) →
    (applyFixes lines errs)[k]? = lines[k]?
  | [], _, _, _ => rfl
  | i :: rest, lines, k, h => by
    rw [applyFixes_cons]
    cases hr : i.replacement with
    | none =>
      simp only [hr]
      exact applyFixes_frame rest lines k (fun j hj => h j (by simp [hj]))
    | some r =>
      simp only [hr]
      obtain ⟨hne, hge⟩ := h i (by simp) (by simp [hr])
      have hidx : i.lineNum - 1 ≠ k := by omega
      rw [applyFixes_frame rest _ k (fun j hj => h j (by simp [hj]))]
      exact List.getElem?_set_ne hidx

/-- C7: when auto-fix runs, only the lines at the (1-based) line numbers of
fixable issues are replaced: every index not named by a fixable issue holds
its original line, and the number and order of lines is preserved. -/
theorem claim7_patch_frame (path : String) (thisYear : Nat) (lines : List Str) (k : Nat)
    (h : ∀ i ∈ checkCopyrightIssues path thisYear lines,
      i.replacement ≠ none → i.lineNum ≠ k + 1) :
    ((checkCopyrightPure path thisYear true lines).2)[k]? = lines[k]? ∧
    ((checkCopyrightPure path thisYear true lines).2).length = lines.length := by
  rw [checkCopyrightPure_eq]
  refine ⟨?_, ?_⟩
  · exact applyFixes_frame (checkCopyrightIssues path thisYear lines) lines k
      (fun i hi hr => ⟨h i hi hr, checkIssues_fixable_lineNum_ge path thisYear lines i hi hr⟩)
  · exact applyFixes_length (checkCopyrightIssues path thisYear lines) lines

theorem claim7_witness :
    (∀ i ∈ checkCopyrightIssues "file.py" 2024
        [strL "hello\n", strL "Copyright (c) 2019, NVIDIA CORPORATION\n"],
      i.replacement ≠ none → i.lineNum ≠ 0 + 1) ∧
    ((checkCopyrightPure "file.py" 2024 true
        [strL "hello\n", strL "Copyright (c) 2019, NVIDIA CORPORATION\n"]).2)[0]?
      = [strL "hello\n", strL "Copyright (c) 2019, NVIDIA CORPORATION\n"][0]? ∧
    ((checkCopyrightPure "file.py" 2024 true
        [strL "hello\n", strL "Copyright (c) 2019, NVIDIA CORPORATION\n"]).2).length
      = [strL "hello\n", strL "Copyright (c) 2019, NVIDIA CORPORATION\n"].length :=
  ⟨by decide, claim7_patch_frame _ _ _ _ (by decide)⟩

/-- C8: `checkCopyright_main` exits with 1 when at least one issue remains
across all scanned files, with 0 when none do, and with 1 — before scanning
any file and reporting nothing — when compiling an exemption pattern raises
a regular-expression error. -/
theorem claim8_exit_codes (dirs : List (Bool × List ScanFile)) (files : List ScanFile)
    (thisYear : Nat) (update : Bool) :
    mainModel true dirs thisYear update = .ok (1, []) ∧
    (collectFiles dirs = .ok files →
      (scanErrors files thisYear update = [] →
        mainModel false dirs thisYear update = .ok (0, [])) ∧
      (scanErrors files thisYear update ≠ [] →
        mainModel false dirs thisYear update
          = .ok (1, scanErrors files thisYear update))) := by
  refine ⟨rfl, fun hc => ⟨?_, ?_⟩⟩
  · intro he
    simp [mainModel, hc, he]
  · intro he
    have hlen : 0 < (scanErrors files thisYear update).length := List.length_pos.mpr he
    simp [mainModel, hc, hlen]

theorem claim8_witness :
    mainModel true [(true, [⟨"a.py", [strL "hello\n"]⟩])] 2024 false = .ok (1, []) ∧
    mainModel false [(true, [⟨"a.py", [strL "hello\n"]⟩])] 2024 false
      = .ok (1, scanErrors [⟨"a.py", [strL "hello\n"]⟩] 2024 false) :=
  ⟨(claim8_exit_codes [(true, [⟨"a.py", [strL "hello\n"]⟩])]
      [⟨"a.py", [strL "hello\n"]⟩] 2024 false).1,
   ((claim8_exit_codes [(true, [⟨"a.py", [strL "hello\n"]⟩])]
      [⟨"a.py", [strL "hello\n"]⟩] 2024 false).2 rfl).2 (by decide)⟩

theorem collectFiles_error (dirs : List (Bool × List ScanFile))
    (h : ∃ d ∈ dirs, d.1 = false) : collectFiles dirs = .error "is not a directory." := by
  induction dirs with
  | nil => simp at h
  | cons d rest ih =>
    obtain ⟨e, he, hfalse⟩ := h
    rw [List.mem_cons] at he
    unfold collectFiles
    cases hd : d.1 with
    | false =>
      obtain ⟨b, fs⟩ := d
      simp at hd
      simp [hd]
    | true =>
      obtain ⟨b, fs⟩ := d
      simp at hd
      subst hd
      cases he with
      | inl h1 => rw [h1] at hfalse; simp at hfalse
      | inr h1 =>
        rw [ih ⟨e, h1, hfalse⟩]
        rfl

/-- C9: if any positional directory argument does not name an existing
directory, the run aborts with the uncaught `ValueError` — a non-zero exit —
before any file is scanned, and no issue list is ever produced. -/
theorem claim9_bad_directory_aborts (dirs : List (Bool × List ScanFile))
    (thisYear : Nat) (update : Bool) (h : ∃ d ∈ dirs, d.1 = false) :
    mainModel false dirs thisYear update = .error "is not a directory." ∧
    ∀ code issues, mainModel false dirs thisYear update ≠ .ok (code, issues) := by
  have hc := collectFiles_error dirs h
  constructor
  · simp [mainModel, hc]
  · intro code issues
    simp [mainModel, hc]

theorem claim9_witness :
    mainModel false [(true, [⟨"a.py", [strL "hello\n"]⟩]), (false, [])] 2024 false
      = .error "is not a directory." ∧
    ∀ code issues,
      mainModel false [(true, [⟨"a.py", [strL "hello\n"]⟩]), (false, [])] 2024 false
        ≠ .ok (code, issues) :=
  claim9_bad_directory_aborts _ _ _ ⟨(false, []), by decide, rfl⟩

theorem tryLit_self_append : ∀ l s : Str, tryLit l (l ++ s) = some s
  | [], _ => rfl
  | a :: ls, s => by
    simp only [List.cons_append, tryLit, if_pos rfl]
    exact tryLit_self_append ls s

theorem tryLit_cons_ne (a : Char) (l : Str) (c : Char) (s : Str) (h : c ≠ a) :
    tryLit (a :: l) (c :: s) = none := by
  simp [tryLit, h]

theorem tryLit_cons_eq (a : Char) (l s : Str) :
    tryLit (a :: l) (a :: s) = tryLit l s := by
  simp [tryLit]

theorem tryOptLit_of_none (l s : Str) (h : tryLit l s = none) : tryOptLit l s = s := by
  simp [tryOptLit, h]

theorem tryOptLit_of_some (l s r : Str) (h : tryLit l s = some r) : tryOptLit l s = r := by
  simp [tryOptLit, h]

theorem skipSpaces_replicate : ∀ (n : Nat) (s : Str),
    skipSpaces (List.replicate n ' ' ++ s) = skipSpaces s
  | 0, s => by simp
  | n + 1, s => by
    simp only [List.replicate, List.cons_append, skipSpaces, if_pos rfl]
    exact skipSpaces_replicate n s

theorem skipSpaces_cons_ne (c : Char) (s : Str) (h : c ≠ ' ') :
    skipSpaces (c :: s) = c :: s := by
  simp [skipSpaces, h]

theorem tryDigits4_append (a b c e : Char) (s : Str) (ha : a.isDigit = true)
    (hb : b.isDigit = true) (hc : c.isDigit = true) (he : e.isDigit = true) :
    tryDigits 4 (a :: (b :: (c :: (e :: s)))) = some ([a, b, c, e], s) := by
  simp [tryDigits, ha, hb, hc, he]

theorem isDigit_ne (c : Char) (h : c.isDigit = true) :
    c ≠ ' ' ∧ c ≠ '(' ∧ c ≠ 'C' ∧ c ≠ ',' := by
  refine ⟨?_, ?_, ?_, ?_⟩ <;> intro heq <;> subst heq <;> exact absurd h (by decide)

theorem copyright_cons (y : Str) :
    strL "Copyright" ++ y = 'C' :: (strL "opyright" ++ y) := rfl

theorem corpTail_append (upper : Bool) (suffix : Str) :
    corpTail ((cond upper (strL "ORPORATION") (strL "orporation")) ++ suffix)
      = some suffix := by
  cases upper
  · show corpTail (strL "orporation" ++ suffix) = some suffix
    have h1 : tryLit (strL "ORPORATION") (strL "orporation" ++ suffix) = none := by
      have h2 : strL "orporation" ++ suffix = 'o' :: (strL "rporation" ++ suffix) := rfl
      have h3 : strL "ORPORATION" = 'O' :: strL "RPORATION" := rfl
      rw [h2, h3]
      exact tryLit_cons_ne _ _ _ _ (by decide)
    unfold corpTail
    rw [h1]
    exact tryLit_self_append _ _
  · show corpTail (strL "ORPORATION" ++ suffix) = some suffix
    unfold corpTail
    rw [tryLit_self_append]

/-- The `? *(?:\(c\))? *` segment between `Copyright` and the first digit
group: for any spacing and optional `(c)`, the matcher ends up exactly at
the digits. -/
theorem afterOpen (n1 : Nat) (hasC : Bool) (n2 : Nat) (a : Char) (x : Str)
    (hsp : a ≠ ' ') (hpar : a ≠ '(') :
    skipSpaces (tryOptLit (strL "(c)") (skipSpaces
      (List.replicate n1 ' ' ++ ((cond hasC (strL "(c)") []) ++
        (List.replicate n2 ' ' ++ (a :: x)))))) = a :: x := by
  cases hasC
  · show skipSpaces (tryOptLit (strL "(c)") (skipSpaces
      (List.replicate n1 ' ' ++ ([] ++ (List.replicate n2 ' ' ++ (a :: x)))))) = a :: x
    rw [List.nil_append, skipSpaces_replicate, skipSpaces_replicate,
      skipSpaces_cons_ne a x hsp]
    have hnone : tryLit (strL "(c)") (a :: x) = none := by
      have h3 : strL "(c)" = '(' :: strL "c)" := rfl
      rw [h3]
      exact tryLit_cons_ne _ _ _ _ hpar
    rw [tryOptLit_of_none _ _ hnone, skipSpaces_cons_ne a x hsp]
  · show skipSpaces (tryOptLit (strL "(c)") (skipSpaces
      (List.replicate n1 ' ' ++ (strL "(c)" ++ (List.replicate n2 ' ' ++ (a :: x)))))) = a :: x
    rw [skipSpaces_replicate]
    have h2 : strL "(c)" ++ (List.replicate n2 ' ' ++ (a :: x))
        = '(' :: (strL "c)" ++ (List.replicate n2 ' ' ++ (a :: x))) := rfl
    rw [h2, skipSpaces_cons_ne _ _ (by decide), ← h2,
      tryOptLit_of_some _ _ _ (tryLit_self_append _ _), skipSpaces_replicate,
      skipSpaces_cons_ne a x hsp]

/-- The `,? *` segment before `NVIDIA C`: for any optional comma and
spacing, the matcher ends up exactly at `NVIDIA C`. -/
theorem afterComma (hasComma : Bool) (n3 : Nat) (z : Str) :
    skipSpaces (tryOptLit (strL ",") ((cond hasComma [','] []) ++
      (List.replicate n3 ' ' ++ (strL "NVIDIA C" ++ z)))) = strL "NVIDIA C" ++ z := by
  have hn : strL "NVIDIA C" ++ z = 'N' :: (strL "VIDIA C" ++ z) := rfl
  cases hasComma
  · show skipSpaces (tryOptLit (strL ",")
      ([] ++ (List.replicate n3 ' ' ++ (strL "NVIDIA C" ++ z)))) = strL "NVIDIA C" ++ z
    rw [List.nil_append]
    have hnone : tryLit (strL ",")
        (List.replicate n3 ' ' ++ (strL "NVIDIA C" ++ z)) = none := by
      cases n3 with
      | zero =>
        show tryLit (strL ",") (strL "NVIDIA C" ++ z) = none
        rw [hn, show strL "," = [','] from rfl]
        exact tryLit_cons_ne _ _ _ _ (by decide)
      | succ m =>
        show tryLit (strL ",") (' ' :: (List.replicate m ' ' ++ (strL "NVIDIA C" ++ z)))
          = none
        rw [show strL "," = [','] from rfl]
        exact tryLit_cons_ne _ _ _ _ (by decide)
    rw [tryOptLit_of_none _ _ hnone, skipSpaces_replicate, hn,
      skipSpaces_cons_ne _ _ (by decide)]
  · show skipSpaces (tryOptLit (strL ",")
      ([','] ++ (List.replicate n3 ' ' ++ (strL "NVIDIA C" ++ z)))) = strL "NVIDIA C" ++ z
    rw [tryOptLit_of_some _ _ _
        (by rw [show strL "," = [','] from rfl]; exact tryLit_self_append _ _),
      skipSpaces_replicate, hn, skipSpaces_cons_ne _ _ (by decide)]

/-- The text after `Copyright` in a line matched by `CheckSimple`, with all
the pattern's degrees of freedom: `n1`/`n2`/`n3` spaces, optional `(c)`,
the four year digits `d`, optional comma, and upper- or lower-case
`orporation`. -/
def simpleNoticeRest (n1 : Nat) (hasC : Bool) (n2 : Nat) (d : Str) (hasComma : Bool)
    (n3 : Nat) (upper : Bool) : Str :=
  List.replicate n1 ' ' ++ ((cond hasC (strL "(c)") []) ++
    (List.replicate n2 ' ' ++ (d ++ ((cond hasComma [','] []) ++
      (List.replicate n3 ' ' ++ (strL "NVIDIA C" ++
        (cond upper (strL "ORPORATION") (strL "orporation"))))))))

/-- A full line fragment matched by `CheckSimple` at its head. -/
def simpleNotice (n1 : Nat) (hasC : Bool) (n2 : Nat) (d : Str) (hasComma : Bool)
    (n3 : Nat) (upper : Bool) : Str :=
  strL "Copyright" ++ simpleNoticeRest n1 hasC n2 d hasComma n3 upper

/-- The text after `Copyright` in a line matched by `CheckDouble`. -/
def doubleNoticeRest (n1 : Nat) (hasC : Bool) (n2 : Nat) (d1 d2 : Str) (hasComma : Bool)
    (n3 : Nat) (upper : Bool) : Str :=
  List.replicate n1 ' ' ++ ((cond hasC (strL "(c)") []) ++
    (List.replicate n2 ' ' ++ (d1 ++ (strL "-" ++ (d2 ++ ((cond hasComma [','] []) ++
      (List.replicate n3 ' ' ++ (strL "NVIDIA C" ++
        (cond upper (strL "ORPORATION") (strL "orporation"))))))))))

/-- A full line fragment matched by `CheckDouble` at its head. -/
def doubleNotice (n1 : Nat) (hasC : Bool) (n2 : Nat) (d1 d2 : Str) (hasComma : Bool)
    (n3 : Nat) (upper : Bool) : Str :=
  strL "Copyright" ++ doubleNoticeRest n1 hasC n2 d1 d2 hasComma n3 upper

theorem matchSimple_simpleNotice (n1 : Nat) (hasC : Bool) (n2 : Nat) (a b c e : Char)
    (hasComma : Bool) (n3 : Nat) (upper : Bool) (suffix : Str) (ha : a.isDigit = true)
    (hb : b.isDigit = true) (hc : c.isDigit = true) (he : e.isDigit = true) :
    matchSimpleAnchored (simpleNotice n1 hasC n2 [a, b, c, e] hasComma n3 upper ++ suffix)
      = some ([a, b, c, e], suffix) := by
  have hsh : simpleNotice n1 hasC n2 [a, b, c, e] hasComma n3 upper ++ suffix
      = strL "Copyright" ++
        (List.replicate n1 ' ' ++ ((cond hasC (strL "(c)") []) ++
          (List.replicate n2 ' ' ++ (a :: (b :: (c :: (e ::
            ((cond hasComma [','] []) ++
              (List.replicate n3 ' ' ++ (strL "NVIDIA C" ++
                ((cond upper (strL "ORPORATION") (strL "orporation")) ++
                  suffix))))))))))) := by
    simp [simpleNotice, simpleNoticeRest, List.append_assoc]
  rw [hsh]
  unfold matchSimpleAnchored
  rw [tryLit_self_append]
  simp only [Option.some_bind]
  rw [afterOpen _ _ _ _ _ (isDigit_ne a ha).1 (isDigit_ne a ha).2.1,
    tryDigits4_append a b c e _ ha hb hc he]
  simp only [Option.some_bind]
  rw [afterComma, tryLit_self_append]
  simp only [Option.some_bind]
  rw [corpTail_append]
  rfl

theorem matchDouble_doubleNotice (n1 : Nat) (hasC : Bool) (n2 : Nat)
    (a b c e f g h i : Char) (hasComma : Bool) (n3 : Nat) (upper : Bool) (suffix : Str)
    (ha : a.isDigit = true) (hb : b.isDigit = true) (hc : c.isDigit = true)
    (he : e.isDigit = true) (hf : f.isDigit = true) (hg : g.isDigit = true)
    (hh : h.isDigit = true) (hi : i.isDigit = true) :
    matchDoubleAnchored
        (doubleNotice n1 hasC n2 [a, b, c, e] [f, g, h, i] hasComma n3 upper ++ suffix)
      = some ([a, b, c, e], [f, g, h, i], suffix) := by
  have hsh : doubleNotice n1 hasC n2 [a, b, c, e] [f, g, h, i] hasComma n3 upper ++ suffix
      = strL "Copyright" ++
        (List.replicate n1 ' ' ++ ((cond hasC (strL "(c)") []) ++
          (List.replicate n2 ' ' ++ (a :: (b :: (c :: (e ::
            (strL "-" ++ (f :: (g :: (h :: (i ::
              ((cond hasComma [','] []) ++
                (List.replicate n3 ' ' ++ (strL "NVIDIA C" ++
                  ((cond upper (strL "ORPORATION") (strL "orporation")) ++
                    suffix)))))))))))))))) := by
    simp [doubleNotice, doubleNoticeRest, List.append_assoc]
  rw [hsh]
  unfold matchDoubleAnchored
  rw [tryLit_self_append]
  simp only [Option.some_bind]
  rw [afterOpen _ _ _ _ _ (isDigit_ne a ha).1 (isDigit_ne a ha).2.1,
    tryDigits4_append a b c e _ ha hb hc he]
  simp only [Option.some_bind]
  rw [tryLit_self_append]
  simp only [Option.some_bind]
  rw [tryDigits4_append f g h i _ hf hg hh hi]
  simp only [Option.some_bind]
  rw [afterComma, tryLit_self_append]
  simp only [Option.some_bind]
  rw [corpTail_append]
  rfl

/-- On a range-form notice, `CheckSimple` fails at the head: after the first
four digits the mandatory `NVIDIA C` cannot match the dash. -/
theorem matchSimple_doubleNotice (n1 : Nat) (hasC : Bool) (n2 : Nat)
    (a b c e : Char) (d2 : Str) (hasComma : Bool) (n3 : Nat) (upper : Bool) (suffix : Str)
    (ha : a.isDigit = true) (hb : b.isDigit = true) (hc : c.isDigit = true)
    (he : e.isDigit = true) :
    matchSimpleAnchored
        (doubleNotice n1 hasC n2 [a, b, c, e] d2 hasComma n3 upper ++ suffix)
      = none := by
  have hsh : doubleNotice n1 hasC n2 [a, b, c, e] d2 hasComma n3 upper ++ suffix
      = strL "Copyright" ++
        (List.replicate n1 ' ' ++ ((cond hasC (strL "(c)") []) ++
          (List.replicate n2 ' ' ++ (a :: (b :: (c :: (e ::
            (strL "-" ++ (d2 ++ ((cond hasComma [','] []) ++
              (List.replicate n3 ' ' ++ (strL "NVIDIA C" ++
                ((cond upper (strL "ORPORATION") (strL "orporation")) ++
                  suffix)))))))))))))  := by
    simp [doubleNotice, doubleNoticeRest, List.append_assoc]
  rw [hsh]
  unfold matchSimpleAnchored
  rw [tryLit_self_append]
  simp only [Option.some_bind]
  rw [afterOpen _ _ _ _ _ (isDigit_ne a ha).1 (isDigit_ne a ha).2.1,
    tryDigits4_append a b c e _ ha hb hc he]
  simp only [Option.some_bind]
  have hdash : ∀ y : Str, strL "-" ++ y = '-' :: y := fun _ => rfl
  rw [hdash]
  rw [tryOptLit_of_none _ _
    (by rw [show strL "," = [','] from rfl]; exact tryLit_cons_ne _ _ _ _ (by decide))]
  rw [skipSpaces_cons_ne _ _ (by decide)]
  rw [show strL "NVIDIA C" = 'N' :: strL "VIDIA C" from rfl]
  rw [tryLit_cons_ne _ _ _ _ (by decide)]
  rfl

theorem matchSimpleAnchored_cons_ne (c : Char) (cs : Str) (h : c ≠ 'C') :
    matchSimpleAnchored (c :: cs) = none := by
  unfold matchSimpleAnchored
  rw [show strL "Copyright" = 'C' :: strL "opyright" from rfl, tryLit_cons_ne _ _ _ _ h]
  rfl

theorem subSimple_cons_ne (c : Char) (cs : Str) (h : c ≠ 'C') :
    subSimple (c :: cs) = c :: subSimple cs :=
  subSimple_cons_none c cs (matchSimpleAnchored_cons_ne c cs h)

theorem subSimple_append_ne : ∀ l s : Str, (∀ ch ∈ l, ch ≠ 'C') →
    subSimple (l ++ s) = l ++ subSimple s
  | [], s, _ => by simp
  | c :: l, s, h => by
    rw [List.cons_append, subSimple_cons_ne c _ (h c (by simp)),
      subSimple_append_ne l s (fun ch hch => h ch (by simp [hch])), List.cons_append]

theorem subSimple_eq_self (line : Str) (h : searchSimple line = none) :
    subSimple line = line := by
  induction line with
  | nil => rfl
  | cons c cs ih =>
    unfold searchSimple at h
    cases hm : matchSimpleAnchored (c :: cs) with
    | some p =>
      obtain ⟨d, r⟩ := p
      simp only [hm] at h
      exact Option.noConfusion h
    | none =>
      simp only [hm] at h
      rw [subSimple_cons_none c cs hm, ih h]

theorem subDouble_eq_self (start finish : Nat) (line : Str)
    (h : searchDouble line = none) : subDouble start finish line = line := by
  induction line with
  | nil => rfl
  | cons c cs ih =>
    unfold searchDouble at h
    cases hm : matchDoubleAnchored (c :: cs) with
    | some p =>
      obtain ⟨d1, d2, r⟩ := p
      simp only [hm] at h
      exact Option.noConfusion h
    | none =>
      simp only [hm] at h
      rw [subDouble_cons_none start finish c cs hm, ih h]

theorem getCopyrightYears_none (line : Str) (h : getCopyrightYears line = none) :
    searchSimple line = none ∧ searchDouble line = none := by
  unfold getCopyrightYears at h
  have h1 : searchSimple line = none := by
    cases h1 : searchSimple line with
    | none => rfl
    | some d => rw [h1] at h; simp at h
  rw [h1] at h
  have h2 : searchDouble line = none := by
    cases h2 : searchDouble line with
    | none => rfl
    | some p =>
      obtain ⟨d1, d2⟩ := p
      rw [h2] at h
      simp at h
  exact ⟨h1, h2⟩

theorem replicate_space_ne (n : Nat) : ∀ ch ∈ List.replicate n ' ', ch ≠ 'C' := by
  intro ch hch
  rw [List.eq_of_mem_replicate hch]
  decide

theorem condC_ne (b : Bool) : ∀ ch ∈ (cond b (strL "(c)") [] : Str), ch ≠ 'C' := by
  cases b <;> decide

theorem condComma_ne (b : Bool) : ∀ ch ∈ (cond b [','] [] : Str), ch ≠ 'C' := by
  cases b <;> decide

theorem condCorp_ne (b : Bool) :
    ∀ ch ∈ (cond b (strL "ORPORATION") (strL "orporation") : Str), ch ≠ 'C' := by
  cases b <;> decide

theorem digits4_ne (a b c e : Char) (ha : a.isDigit = true) (hb : b.isDigit = true)
    (hc : c.isDigit = true) (he : e.isDigit = true) :
    ∀ ch ∈ ([a, b, c, e] : Str), ch ≠ 'C' := by
  intro ch hch
  simp only [List.mem_cons, List.not_mem_nil, or_false] at hch
  rcases hch with rfl | rfl | rfl | rfl
  · exact (isDigit_ne ch ha).2.2.1
  · exact (isDigit_ne ch hb).2.2.1
  · exact (isDigit_ne ch hc).2.2.1
  · exact (isDigit_ne ch he).2.2.1

/-- `CheckSimple` cannot start at the `C` of `NVIDIA C` either: `opyright`
matches neither `ORPORATION...` nor `orporation...`. -/
theorem matchSimple_corp_none (upper : Bool) (suffix : Str) :
    matchSimpleAnchored
        ('C' :: ((cond upper (strL "ORPORATION") (strL "orporation")) ++ suffix))
      = none := by
  unfold matchSimpleAnchored
  rw [show strL "Copyright" = 'C' :: strL "opyright" from rfl, tryLit_cons_eq]
  cases upper
  · rw [show (cond false (strL "ORPORATION") (strL "orporation") : Str)
        = strL "orporation" from rfl]
    rw [show strL "orporation" ++ suffix = 'o' :: (strL "rporation" ++ suffix) from rfl,
      show strL "opyright" = 'o' :: strL "pyright" from rfl, tryLit_cons_eq]
    rw [show strL "rporation" ++ suffix = 'r' :: (strL "poration" ++ suffix) from rfl,
      show strL "pyright" = 'p' :: strL "yright" from rfl,
      tryLit_cons_ne _ _ _ _ (by decide)]
    rfl
  · rw [show (cond true (strL "ORPORATION") (strL "orporation") : Str)
        = strL "ORPORATION" from rfl]
    rw [show strL "ORPORATION" ++ suffix = 'O' :: (strL "RPORATION" ++ suffix) from rfl,
      show strL "opyright" = 'o' :: strL "pyright" from rfl,
      tryLit_cons_ne _ _ _ _ (by decide)]
    rfl

/-- `CheckSimple.sub` leaves a range-form notice untouched and moves on to
the rest of the string: no simple match starts anywhere inside the notice. -/
theorem subSimple_doubleNotice (n1 : Nat) (hasC : Bool) (n2 : Nat)
    (a b c e f g h i : Char) (hasComma : Bool) (n3 : Nat) (upper : Bool) (suffix : Str)
    (ha : a.isDigit = true) (hb : b.isDigit = true) (hc : c.isDigit = true)
    (he : e.isDigit = true) (hf : f.isDigit = true) (hg : g.isDigit = true)
    (hh : h.isDigit = true) (hi : i.isDigit = true) :
    subSimple (doubleNotice n1 hasC n2 [a, b, c, e] [f, g, h, i] hasComma n3 upper ++ suffix)
      = doubleNotice n1 hasC n2 [a, b, c, e] [f, g, h, i] hasComma n3 upper
          ++ subSimple suffix := by
  have hcons : doubleNotice n1 hasC n2 [a, b, c, e] [f, g, h, i] hasComma n3 upper ++ suffix
      = 'C' :: (strL "opyright" ++
          (doubleNoticeRest n1 hasC n2 [a, b, c, e] [f, g, h, i] hasComma n3 upper
            ++ suffix)) := by
    rw [doubleNotice, List.append_assoc, copyright_cons]
  have hconsR : doubleNotice n1 hasC n2 [a, b, c, e] [f, g, h, i] hasComma n3 upper
        ++ subSimple suffix
      = 'C' :: (strL "opyright" ++
          (doubleNoticeRest n1 hasC n2 [a, b, c, e] [f, g, h, i] hasComma n3 upper
            ++ subSimple suffix)) := by
    rw [doubleNotice, List.append_assoc, copyright_cons]
  have hm0 : matchSimpleAnchored ('C' :: (strL "opyright" ++
      (doubleNoticeRest n1 hasC n2 [a, b, c, e] [f, g, h, i] hasComma n3 upper
        ++ suffix))) = none := by
    rw [← hcons]
    exact matchSimple_doubleNotice n1 hasC n2 a b c e [f, g, h, i] hasComma n3 upper suffix
      ha hb hc he
  have hblocks : ∀ y : Str,
      doubleNoticeRest n1 hasC n2 [a, b, c, e] [f, g, h, i] hasComma n3 upper ++ y
      = List.replicate n1 ' ' ++ ((cond hasC (strL "(c)") []) ++
          (List.replicate n2 ' ' ++ (([a, b, c, e] : Str) ++ (strL "-" ++
            (([f, g, h, i] : Str) ++ ((cond hasComma [','] []) ++
              (List.replicate n3 ' ' ++ (strL "NVIDIA " ++ ('C' ::
                ((cond upper (strL "ORPORATION") (strL "orporation")) ++
                  y)))))))))) := by
    intro y
    simp only [doubleNoticeRest, List.append_assoc, List.cons_append, List.nil_append,
      show ∀ z : Str, strL "NVIDIA C" ++ z = strL "NVIDIA " ++ ('C' :: z)
        from fun _ => rfl]
  rw [hcons, hconsR, subSimple_cons_none _ _ hm0]
  congr 1
  rw [subSimple_append_ne (strL "opyright") _ (by decide)]
  congr 1
  rw [hblocks suffix, hblocks (subSimple suffix)]
  rw [subSimple_append_ne _ _ (replicate_space_ne n1)]
  congr 1
  rw [subSimple_append_ne _ _ (condC_ne hasC)]
  congr 1
  rw [subSimple_append_ne _ _ (replicate_space_ne n2)]
  congr 1
  rw [subSimple_append_ne _ _ (digits4_ne a b c e ha hb hc he)]
  congr 1
  rw [subSimple_append_ne (strL "-") _ (by decide)]
  congr 1
  rw [subSimple_append_ne _ _ (digits4_ne f g h i hf hg hh hi)]
  congr 1
  rw [subSimple_append_ne _ _ (condComma_ne hasComma)]
  congr 1
  rw [subSimple_append_ne _ _ (replicate_space_ne n3)]
  congr 1
  rw [subSimple_append_ne (strL "NVIDIA ") _ (by decide)]
  congr 1
  rw [subSimple_cons_none _ _ (matchSimple_corp_none upper suffix)]
  congr 1
  rw [subSimple_append_ne _ _ (condCorp_ne upper)]

theorem simpleRepl_eq_doubleNotice (a b c e : Char) :
    simpleRepl [a, b, c, e] = doubleNotice 1 true 1 [a, b, c, e] [a, b, c, e] true 1 true :=
  rfl

theorem matchDoubleAnchored_cons_ne (c : Char) (cs : Str) (h : c ≠ 'C') :
    matchDoubleAnchored (c :: cs) = none := by
  unfold matchDoubleAnchored
  rw [show strL "Copyright" = 'C' :: strL "opyright" from rfl, tryLit_cons_ne _ _ _ _ h]
  rfl

theorem subDouble_cons_ne (start finish : Nat) (c : Char) (cs : Str) (h : c ≠ 'C') :
    subDouble start finish (c :: cs) = c :: subDouble start finish cs :=
  subDouble_cons_none start finish c cs (matchDoubleAnchored_cons_ne c cs h)

theorem subDouble_append_ne (start finish : Nat) : ∀ l s : Str, (∀ ch ∈ l, ch ≠ 'C') →
    subDouble start finish (l ++ s) = l ++ subDouble start finish s
  | [], s, _ => by simp
  | c :: l, s, h => by
    rw [List.cons_append, subDouble_cons_ne start finish c _ (h c (by simp)),
      subDouble_append_ne start finish l s (fun ch hch => h ch (by simp [hch])),
      List.cons_append]

/-- One occurrence of either pattern inside a line, with all the degrees of
freedom both regexes allow: spacing, optional `(c)`, the year digits,
optional comma, and the capitalisation of `orporation`. -/
inductive Occ where
  | simple (n1 : Nat) (hasC : Bool) (n2 : Nat) (a b c e : Char) (hasComma : Bool)
      (n3 : Nat) (upper : Bool)
  | double (n1 : Nat) (hasC : Bool) (n2 : Nat) (a b c e f g h i : Char)
      (hasComma : Bool) (n3 : Nat) (upper : Bool)

/-- The text of an occurrence as it stands in the line. -/
def Occ.text : Occ → Str
  | .simple n1 hasC n2 a b c e hasComma n3 upper =>
    simpleNotice n1 hasC n2 [a, b, c, e] hasComma n3 upper
  | .double n1 hasC n2 a b c e f g h i hasComma n3 upper =>
    doubleNotice n1 hasC n2 [a, b, c, e] [f, g, h, i] hasComma n3 upper

/-- All year characters of the occurrence are digits. -/
def Occ.digitsOK : Occ → Bool
  | .simple _ _ _ a b c e _ _ _ => a.isDigit && b.isDigit && c.isDigit && e.isDigit
  | .double _ _ _ a b c e f g h i _ _ _ =>
    a.isDigit && b.isDigit && c.isDigit && e.isDigit &&
    f.isDigit && g.isDigit && h.isDigit && i.isDigit

/-- What `CheckSimple.sub` leaves of an occurrence: a simple notice becomes
the canonical `Copyright (c) \1-\1, NVIDIA CORPORATION`, a range notice is
untouched. -/
def Occ.afterSimpleSub : Occ → Str
  | .simple _ _ _ a b c e _ _ _ => simpleRepl [a, b, c, e]
  | .double n1 hasC n2 a b c e f g h i hasComma n3 upper =>
    doubleNotice n1 hasC n2 [a, b, c, e] [f, g, h, i] hasComma n3 upper

/-- A line as an alternation of gap text and pattern occurrences, ended by a
tail: `gap₁ ++ occ₁ ++ gap₂ ++ occ₂ ++ ⋯ ++ tail`, with `f` giving the text
of each occurrence. -/
def assembleWith (f : Occ → Str) : List (Str × Occ) → Str → Str
  | [], tail => tail
  | (g, o) :: rest, tail => g ++ (f o ++ assembleWith f rest tail)

theorem subSimple_assemble (blocks : List (Str × Occ)) (tail : Str)
    (hb : ∀ p ∈ blocks, (∀ ch ∈ p.1, ch ≠ 'C') ∧ p.2.digitsOK = true)
    (ht : searchSimple tail = none) :
    subSimple (assembleWith Occ.text blocks tail)
      = assembleWith Occ.afterSimpleSub blocks tail := by
  induction blocks with
  | nil => exact subSimple_eq_self tail ht
  | cons p rest ih =>
    obtain ⟨g, o⟩ := p
    obtain ⟨hg, ho⟩ := hb (g, o) (by simp)
    have hrest := ih (fun q hq => hb q (by simp [hq]))
    show subSimple (g ++ (Occ.text o ++ assembleWith Occ.text rest tail))
        = g ++ (Occ.afterSimpleSub o ++ assembleWith Occ.afterSimpleSub rest tail)
    rw [subSimple_append_ne g _ hg]
    congr 1
    cases o with
    | simple n1 hasC n2 a b c e hasComma n3 upper =>
      simp only [Occ.digitsOK, Bool.and_eq_true] at ho
      obtain ⟨⟨⟨ha, hbb⟩, hcc⟩, hee⟩ := ho
      show subSimple (simpleNotice n1 hasC n2 [a, b, c, e] hasComma n3 upper
            ++ assembleWith Occ.text rest tail)
          = simpleRepl [a, b, c, e] ++ assembleWith Occ.afterSimpleSub rest tail
      have hcons : simpleNotice n1 hasC n2 [a, b, c, e] hasComma n3 upper
            ++ assembleWith Occ.text rest tail
          = 'C' :: (strL "opyright" ++
              (simpleNoticeRest n1 hasC n2 [a, b, c, e] hasComma n3 upper
                ++ assembleWith Occ.text rest tail)) := by
        rw [simpleNotice, List.append_assoc, copyright_cons]
      have hm : matchSimpleAnchored ('C' :: (strL "opyright" ++
          (simpleNoticeRest n1 hasC n2 [a, b, c, e] hasComma n3 upper
            ++ assembleWith Occ.text rest tail)))
          = some ([a, b, c, e], assembleWith Occ.text rest tail) := by
        rw [← hcons]
        exact matchSimple_simpleNotice n1 hasC n2 a b c e hasComma n3 upper _
          ha hbb hcc hee
      rw [hcons, subSimple_cons_some _ _ _ _ hm, hrest]
    | double n1 hasC n2 a b c e f g' h i hasComma n3 upper =>
      simp only [Occ.digitsOK, Bool.and_eq_true] at ho
      obtain ⟨⟨⟨⟨⟨⟨⟨ha, hbb⟩, hcc⟩, hee⟩, hff⟩, hgg⟩, hhh⟩, hii⟩ := ho
      show subSimple (doubleNotice n1 hasC n2 [a, b, c, e] [f, g', h, i] hasComma n3 upper
            ++ assembleWith Occ.text rest tail)
          = doubleNotice n1 hasC n2 [a, b, c, e] [f, g', h, i] hasComma n3 upper
              ++ assembleWith Occ.afterSimpleSub rest tail
      rw [subSimple_doubleNotice n1 hasC n2 a b c e f g' h i hasComma n3 upper _
        ha hbb hcc hee hff hgg hhh hii, hrest]

theorem subDouble_assemble (start finish : Nat) (blocks : List (Str × Occ)) (tail : Str)
    (hb : ∀ p ∈ blocks, (∀ ch ∈ p.1, ch ≠ 'C') ∧ p.2.digitsOK = true)
    (ht : searchDouble tail = none) :
    subDouble start finish (assembleWith Occ.afterSimpleSub blocks tail)
      = assembleWith (fun _ => doubleRepl start finish) blocks tail := by
  induction blocks with
  | nil => exact subDouble_eq_self start finish tail ht
  | cons p rest ih =>
    obtain ⟨g, o⟩ := p
    obtain ⟨hg, ho⟩ := hb (g, o) (by simp)
    have hrest := ih (fun q hq => hb q (by simp [hq]))
    show subDouble start finish
          (g ++ (Occ.afterSimpleSub o ++ assembleWith Occ.afterSimpleSub rest tail))
        = g ++ (doubleRepl start finish
            ++ assembleWith (fun _ => doubleRepl start finish) rest tail)
    rw [subDouble_append_ne start finish g _ hg]
    congr 1
    cases o with
    | simple n1 hasC n2 a b c e hasComma n3 upper =>
      simp only [Occ.digitsOK, Bool.and_eq_true] at ho
      obtain ⟨⟨⟨ha, hbb⟩, hcc⟩, hee⟩ := ho
      show subDouble start finish (simpleRepl [a, b, c, e]
            ++ assembleWith Occ.afterSimpleSub rest tail)
          = doubleRepl start finish
              ++ assembleWith (fun _ => doubleRepl start finish) rest tail
      rw [simpleRepl_eq_doubleNotice]
      have hcons : doubleNotice 1 true 1 [a, b, c, e] [a, b, c, e] true 1 true
            ++ assembleWith Occ.afterSimpleSub rest tail
          = 'C' :: (strL "opyright" ++
              (doubleNoticeRest 1 true 1 [a, b, c, e] [a, b, c, e] true 1 true
                ++ assembleWith Occ.afterSimpleSub rest tail)) := by
        rw [doubleNotice, List.append_assoc, copyright_cons]
      have hm : matchDoubleAnchored ('C' :: (strL "opyright" ++
          (doubleNoticeRest 1 true 1 [a, b, c, e] [a, b, c, e] true 1 true
            ++ assembleWith Occ.afterSimpleSub rest tail)))
          = some ([a, b, c, e], [a, b, c, e], assembleWith Occ.afterSimpleSub rest tail) := by
        rw [← hcons]
        exact matchDouble_doubleNotice 1 true 1 a b c e a b c e true 1 true _
          ha hbb hcc hee ha hbb hcc hee
      rw [hcons, subDouble_cons_some _ _ _ _ _ _ _ hm, hrest]
    | double n1 hasC n2 a b c e f g' h i hasComma n3 upper =>
      simp only [Occ.digitsOK, Bool.and_eq_true] at ho
      obtain ⟨⟨⟨⟨⟨⟨⟨ha, hbb⟩, hcc⟩, hee⟩, hff⟩, hgg⟩, hhh⟩, hii⟩ := ho
      show subDouble start finish
            (doubleNotice n1 hasC n2 [a, b, c, e] [f, g', h, i] hasComma n3 upper
              ++ assembleWith Occ.afterSimpleSub rest tail)
          = doubleRepl start finish
              ++ assembleWith (fun _ => doubleRepl start finish) rest tail
      have hcons : doubleNotice n1 hasC n2 [a, b, c, e] [f, g', h, i] hasComma n3 upper
            ++ assembleWith Occ.afterSimpleSub rest tail
          = 'C' :: (strL "opyright" ++
              (doubleNoticeRest n1 hasC n2 [a, b, c, e] [f, g', h, i] hasComma n3 upper
                ++ assembleWith Occ.afterSimpleSub rest tail)) := by
        rw [doubleNotice, List.append_assoc, copyright_cons]
      have hm : matchDoubleAnchored ('C' :: (strL "opyright" ++
          (doubleNoticeRest n1 hasC n2 [a, b, c, e] [f, g', h, i] hasComma n3 upper
            ++ assembleWith Occ.afterSimpleSub rest tail)))
          = some ([a, b, c, e], [f, g', h, i], assembleWith Occ.afterSimpleSub rest tail) := by
        rw [← hcons]
        exact matchDouble_doubleNotice n1 hasC n2 a b c e f g' h i hasComma n3 upper _
          ha hbb hcc hee hff hgg hhh hii
      rw [hcons, subDouble_cons_some _ _ _ _ _ _ _ hm, hrest]

/-- C10: on a line decomposed as `gap₁ ++ occ₁ ++ gap₂ ++ occ₂ ++ ⋯ ++ tail`
— any number of occurrences of either pattern (any spacing, optional `(c)`,
optional comma, either capitalisation), the matched year characters being
digits, each gap free of the letter `C` (so no match starts in or crosses
out of a gap) and the tail free of matches — `replaceCurrentYear` rewrites
every occurrence to the exact canonical text
`Copyright (c) START-END, NVIDIA CORPORATION` with the given zero-padded
years, while every gap and the tail are returned byte-identical; a line
matching neither pattern is returned unchanged. -/
theorem claim10_replace_canonical :
    (∀ (line : Str) (start finish : Nat), getCopyrightYears line = none →
      replaceCurrentYear line start finish = line) ∧
    (∀ (blocks : List (Str × Occ)) (tail : Str) (start finish : Nat),
      (∀ p ∈ blocks, (∀ ch ∈ p.1, ch ≠ 'C') ∧ p.2.digitsOK = true) →
      searchSimple tail = none → searchDouble tail = none →
      replaceCurrentYear (assembleWith Occ.text blocks tail) start finish
        = assembleWith (fun _ => doubleRepl start finish) blocks tail) := by
  constructor
  · intro line start finish h
    obtain ⟨h1, h2⟩ := getCopyrightYears_none line h
    unfold replaceCurrentYear
    rw [subSimple_eq_self line h1, subDouble_eq_self start finish line h2]
  · intro blocks tail start finish hb ht1 ht2
    unfold replaceCurrentYear
    rw [subSimple_assemble blocks tail hb ht1, subDouble_assemble start finish blocks tail hb ht2]

theorem claim10_witness :
    (assembleWith Occ.text
        [(strL "# ", Occ.double 1 true 1 '2' '0' '1' '9' '2' '0' '2' '2' true 1 true)]
        (strL ".\n")
      = strL "# Copyright (c) 2019-2022, NVIDIA CORPORATION.\n") ∧
    (∀ p ∈ [(strL "# ", Occ.double 1 true 1 '2' '0' '1' '9' '2' '0' '2' '2' true 1 true)],
      (∀ ch ∈ p.1, ch ≠ 'C') ∧ p.2.digitsOK = true) ∧
    searchSimple (strL ".\n") = none ∧ searchDouble (strL ".\n") = none ∧
    replaceCurrentYear (strL "# Copyright (c) 2019-2022, NVIDIA CORPORATION.\n") 2019 2024
      = strL "# Copyright (c) 2019-2024, NVIDIA CORPORATION.\n" ∧
    (assembleWith Occ.text
        [([], Occ.simple 1 false 0 '2' '0' '0' '1' false 1 false),
         (strL " and ", Occ.double 1 true 1 '1' '9' '9' '9' '2' '0' '0' '0' true 1 true)]
        (strL "!")
      = strL "Copyright 2001 NVIDIA Corporation and Copyright (c) 1999-2000, NVIDIA CORPORATION!") ∧
    replaceCurrentYear
        (strL "Copyright 2001 NVIDIA Corporation and Copyright (c) 1999-2000, NVIDIA CORPORATION!")
        2001 2024
      = strL "Copyright (c) 2001-2024, NVIDIA CORPORATION and Copyright (c) 2001-2024, NVIDIA CORPORATION!" := by
  refine ⟨by decide, by decide, by decide, by decide, ?_, by decide, ?_⟩
  · have h := claim10_replace_canonical.2
      [(strL "# ", Occ.double 1 true 1 '2' '0' '1' '9' '2' '0' '2' '2' true 1 true)]
      (strL ".\n") 2019 2024 (by decide) (by decide) (by decide)
    rw [show strL "# Copyright (c) 2019-2022, NVIDIA CORPORATION.\n"
        = assembleWith Occ.text
            [(strL "# ", Occ.double 1 true 1 '2' '0' '1' '9' '2' '0' '2' '2' true 1 true)]
            (strL ".\n")
      from by decide]
    rw [h]
    decide
  · have h := claim10_replace_canonical.2
      [([], Occ.simple 1 false 0 '2' '0' '0' '1' false 1 false),
       (strL " and ", Occ.double 1 true 1 '1' '9' '9' '9' '2' '0' '0' '0' true 1 true)]
      (strL "!") 2001 2024 (by decide) (by decide) (by decide)
    rw [show strL "Copyright 2001 NVIDIA Corporation and Copyright (c) 1999-2000, NVIDIA CORPORATION!"
        = assembleWith Occ.text
            [([], Occ.simple 1 false 0 '2' '0' '0' '1' false 1 false),
             (strL " and ", Occ.double 1 true 1 '1' '9' '9' '9' '2' '0' '0' '0' true 1 true)]
            (strL "!")
      from by decide]
    rw [h]
    decide

end CopyrightCheck
